import Mathlib

/-!
# Verification of the stock-screening pipeline (`screen_stocks.py`)

Shallow embedding of the indicator math, criteria evaluation and
orchestration of `src/screen_stocks.py`.  Numeric values are modelled as
rationals (`ℚ`); a pandas `NaN`/non-finite entry is modelled as `Option.none`.
Aligned pandas Series are modelled as index functions `ℕ → Option ℚ` over a
`List ℚ` of observations (`none` = out of range or NaN at that index).
-/

namespace ScreenStocks

/-- Sequencing of optional values over a list: `none` as soon as one entry is
`none`.  This models pandas' rule that a rolling window containing a `NaN`
(with the default `min_periods = window`) produces `NaN`. -/
def optList (f : ℕ → Option ℚ) : List ℕ → Option (List ℚ)
  | [] => some []
  | a :: l =>
    match f a, optList f l with
    | some x, some xs => some (x :: xs)
    | _, _ => none

/-- Embedding of `series.diff()` at index `i`: `series[i] - series[i-1]`, `NaN` at `i = 0`
and out of range. -/
def diffAt (s : List ℚ) : ℕ → Option ℚ
  | 0 => none
  | j + 1 =>
    match s.get? (j + 1), s.get? j with
    | some a, some b => some (a - b)
    | _, _ => none

/-- Embedding of `close.shift()` at index `i`: the previous element, `NaN` at `i = 0`. -/
def prevAt (s : List ℚ) : ℕ → Option ℚ
  | 0 => none
  | j + 1 => s.get? j

/-- The index window `[i+1-P, …, i]` of a `P`-period rolling computation. -/
def rollWindow (P i : ℕ) : List ℕ :=
  (List.range P).map (fun k => i + 1 - P + k)

/-- Embedding of `x.rolling(window=P).sum()` at index `i`: `NaN` while fewer than `P`
observations exist and whenever the window contains a `NaN`. -/
def rollingSum (f : ℕ → Option ℚ) (P i : ℕ) : Option ℚ :=
  if i + 1 < P then none
  else (optList f (rollWindow P i)).map (fun xs => xs.sum)

/-- Embedding of `x.rolling(window=P).mean()` at index `i`. -/
def rollingMean (f : ℕ → Option ℚ) (P i : ℕ) : Option ℚ :=
  (rollingSum f P i).map (fun x => x / (P : ℚ))

/-- Embedding of `delta.where(delta > 0, 0)` at index `i`.  Note that at `i = 0` the `NaN`
delta fails the comparison (`NaN > 0` is `False` in pandas), so the entry is
replaced by `0`, not kept as `NaN`. -/
def gainAt (s : List ℚ) (i : ℕ) : Option ℚ :=
  (s.get? i).map (fun _ =>
    match diffAt s i with
    | some d => if 0 < d then d else 0
    | none => 0)

/-- Embedding of `(-delta.where(delta < 0, 0))` at index `i`; the `i = 0` `NaN` likewise
becomes `0`. -/
def lossAt (s : List ℚ) (i : ℕ) : Option ℚ :=
  (s.get? i).map (fun _ =>
    match diffAt s i with
    | some d => if d < 0 then -d else 0
    | none => 0)

/-- Embedding of the source function `calculate_rsi` at index `i`:
`rs = gain.rolling(P).mean() / (loss.rolling(P).mean() + 1e-10)`,
`rsi = 100 - 100/(1 + rs)`. -/
def calculate_rsi (s : List ℚ) (period i : ℕ) : Option ℚ :=
  (rollingMean (gainAt s) period i).bind (fun g =>
    (rollingMean (lossAt s) period i).map (fun l =>
      100 - 100 / (1 + g / (l + 1 / 10 ^ 10))))

/-- Raw `plus_dm = high.diff()` at index `i`. -/
def plusDMraw (high : List ℚ) (i : ℕ) : Option ℚ := diffAt high i

/-- Raw `minus_dm = -low.diff()` at index `i`. -/
def minusDMraw (low : List ℚ) (i : ℕ) : Option ℚ := (diffAt low i).map (fun d => -d)

/-- Embedding of `plus_dm = plus_dm.where((plus_dm > minus_dm) & (plus_dm > 0), 0)`.
A `NaN` in either raw series makes the comparison `False`, so the entry
becomes `0` (in particular at `i = 0`). -/
def plusDMAt (high low : List ℚ) (i : ℕ) : Option ℚ :=
  (high.get? i).map (fun _ =>
    match plusDMraw high i, minusDMraw low i with
    | some p, some m => if m < p ∧ 0 < p then p else 0
    | _, _ => 0)

/-- Embedding of `minus_dm = minus_dm.where((minus_dm > plus_dm) & (minus_dm > 0), 0)`.
Note the source compares against the already-filtered `plus_dm` (the variable
was reassigned on the previous line), which is what is modelled here. -/
def minusDMAt (high low : List ℚ) (i : ℕ) : Option ℚ :=
  (low.get? i).map (fun _ =>
    match minusDMraw low i, plusDMAt high low i with
    | some m, some p => if p < m ∧ 0 < m then m else 0
    | _, _ => 0)

/-- True range: rowwise max of `high-low`, `|high-close.shift()|`,
`|low-close.shift()|`.  `DataFrame.max(axis=1)` uses `skipna=True`, so at
`i = 0` the two `NaN` prev-close terms are skipped and the max is just
`high - low`. -/
def trAt (high low close : List ℚ) (i : ℕ) : Option ℚ :=
  match high.get? i, low.get? i with
  | some h, some l =>
    some (match prevAt close i with
      | some pc => max (h - l) (max (abs (h - pc)) (abs (l - pc)))
      | none => h - l)
  | _, _ => none

/-- Embedding of `plus_di = 100 * (plus_dm.rolling(P).sum() / tr.rolling(P).sum())`.
Division by a zero rolling true-range sum yields a non-finite float
(`inf`/`NaN`), modelled as `none`. -/
def plusDIAt (high low close : List ℚ) (period i : ℕ) : Option ℚ :=
  match rollingSum (plusDMAt high low) period i, rollingSum (trAt high low close) period i with
  | some s1, some s2 => if s2 = 0 then none else some (100 * (s1 / s2))
  | _, _ => none

/-- Embedding of `minus_di = 100 * (minus_dm.rolling(P).sum() / tr.rolling(P).sum())`. -/
def minusDIAt (high low close : List ℚ) (period i : ℕ) : Option ℚ :=
  match rollingSum (minusDMAt high low) period i, rollingSum (trAt high low close) period i with
  | some s1, some s2 => if s2 = 0 then none else some (100 * (s1 / s2))
  | _, _ => none

/-- Embedding of `dx = 100 * abs(plus_di - minus_di) / (plus_di + minus_di + 0.001)`. -/
def dxAt (high low close : List ℚ) (period i : ℕ) : Option ℚ :=
  match plusDIAt high low close period i, minusDIAt high low close period i with
  | some p, some m =>
    if p + m + 1 / 1000 = 0 then none
    else some (100 * abs (p - m) / (p + m + 1 / 1000))
  | _, _ => none

/-- Embedding of the source function `calculate_adx` at index `i`: `adx = dx.rolling(P).mean()`. -/
def calculate_adx (high low close : List ℚ) (period i : ℕ) : Option ℚ :=
  rollingMean (dxAt high low close period) period i

/-- Tail of the EMA recurrence: given the previous EMA value, emit
`α·x + (1-α)·prev` for each remaining observation. -/
def emaGo (a prev : ℚ) : List ℚ → List ℚ
  | [] => []
  | x :: xs => (a * x + (1 - a) * prev) :: emaGo a (a * x + (1 - a) * prev) xs

/-- Embedding of the source function `calculate_ema`: `series.ewm(span=period, adjust=False).mean()`,
i.e. `ema[0] = series[0]`, `ema[i] = α·series[i] + (1-α)·ema[i-1]` with
`α = 2/(period+1)`.  Defined at every index (no warm-up `NaN`s). -/
def calculate_ema (s : List ℚ) (period : ℕ) : List ℚ :=
  match s with
  | [] => []
  | x :: xs => x :: emaGo (2 / ((period : ℚ) + 1)) x xs

/-- The 20-period rolling mean of volume (`data['Volume'].rolling(window=20).mean()`). -/
def volAvgAt (vols : List ℚ) (i : ℕ) : Option ℚ :=
  rollingMean (fun j => vols.get? j) 20 i

/-- One OHLCV bar.  Volume is an integer per the data model. -/
structure Bar where
  high : ℚ
  low : ℚ
  close : ℚ
  volume : ℤ
deriving DecidableEq

/-- The per-ticker result record built by `screen_stock` (rounding of the
displayed fields is a reporting concern and is not modelled; comparisons in
the source use the full-precision values). -/
structure ScreenResult where
  ticker : String
  price : ℚ
  ema50 : ℚ
  priceAboveEma : Bool
  rsi14 : ℚ
  rsiInRange : Bool
  adx14 : ℚ
  adxStrong : Bool
  volume : ℤ
  volAvg20 : ℚ
  volumeSpike : Bool
  allCriteria : Bool
deriving DecidableEq

/-- The criteria block of `screen_stock` (source lines 140-161):
`price_above_ema`, `rsi_in_range`, `adx_strong`, `volume_spike` and
`all_met = price_above_ema and rsi_in_range and adx_strong and volume_spike`. -/
def evalCriteria (ticker : String) (current_price current_ema50 current_rsi current_adx : ℚ)
    (current_volume : ℤ) (current_vol_avg : ℚ) : ScreenResult :=
  let price_above_ema := decide (current_ema50 < current_price)
  let rsi_in_range := decide (50 ≤ current_rsi) && decide (current_rsi ≤ 70)
  let adx_strong := decide (25 < current_adx)
  let volume_spike :=
    if 0 < current_vol_avg then decide (current_vol_avg * (3 / 2) ≤ (current_volume : ℚ))
    else false
  let all_met := price_above_ema && rsi_in_range && adx_strong && volume_spike
  { ticker := ticker, price := current_price, ema50 := current_ema50,
    priceAboveEma := price_above_ema, rsi14 := current_rsi, rsiInRange := rsi_in_range,
    adx14 := current_adx, adxStrong := adx_strong, volume := current_volume,
    volAvg20 := current_vol_avg, volumeSpike := volume_spike, allCriteria := all_met }

/-- The indicator-extraction part of `screen_stock` (source lines 111-161):
last-row values are extracted, and a non-finite momentum / trend-strength /
volume-average value (modelled as `none`) is replaced by its neutral default
(50.0 / 0.0 / 0.0 respectively) before the criteria are evaluated. -/
def screenStockCompute (ticker : String) (data : List Bar) : ScreenResult :=
  let closes := data.map Bar.close
  let highs := data.map Bar.high
  let lows := data.map Bar.low
  let vols := data.map (fun b => (b.volume : ℚ))
  let last := data.length - 1
  let current_price := closes.getD last 0
  let current_ema50 := (calculate_ema closes 50).getD last 0
  let current_rsi := (calculate_rsi closes 14 last).getD 50
  let current_adx := (calculate_adx highs lows closes 14 last).getD 0
  let current_volume := (data.map Bar.volume).getD last 0
  let current_vol_avg := (volAvgAt vols last).getD 0
  evalCriteria ticker current_price current_ema50 current_rsi current_adx
    current_volume current_vol_avg

/-- Market-suffix normalization: append `.NS` if not already present. -/
def normalizeTicker (t : String) : String :=
  if t.endsWith ".NS" then t else t ++ ".NS"

/-- Embedding of `screen_stock`: fetch (the collaborator returning `none` models a failed
fetch, empty data or an exception), skip when fewer than 50 bars, otherwise
compute the result record.  Any failure yields `none` (ticker skipped). -/
def screen_stock (fetch : String → Option (List Bar)) (ticker : String) :
    Option ScreenResult :=
  match fetch (normalizeTicker ticker) with
  | none => none
  | some data => if data.length < 50 then none else some (screenStockCompute ticker data)

/-- Embedding of `screen_stocks`: evaluate every ticker, keep the successful records, and
return the pair (all results, records passing all criteria).  The source's
completion-order nondeterminism under the thread pool is abstracted to input
order; which records appear and their values are unaffected. -/
def screen_stocks (fetch : String → Option (List Bar)) (tickers : List String) :
    List ScreenResult × List ScreenResult :=
  let df := tickers.filterMap (screen_stock fetch)
  if 0 < df.length then (df, df.filter (fun r => r.allCriteria)) else (df, df)

/-- The save step of `main` (source lines 252-262): returns the list of
(path, table) writes performed and the exit code.  The all-results table is
written only when non-empty; the passed-only table is written only when a
passed-only path was supplied and the passed table is non-empty. -/
def mainSave (allResults passed : List ScreenResult) (output : String)
    (outputPassed : Option String) : List (String × List ScreenResult) × ℕ :=
  if 0 < allResults.length then
    ((output, allResults) ::
      (match outputPassed with
       | some p => if 0 < passed.length then [(p, passed)] else []
       | none => []), 0)
  else ([], 0)

/-- The tail of `main` after ticker-list resolution: screen, then save. -/
def mainRun (fetch : String → Option (List Bar)) (tickers : List String)
    (output : String) (outputPassed : Option String) :
    List (String × List ScreenResult) × ℕ :=
  let r := screen_stocks fetch tickers
  mainSave r.1 r.2 output outputPassed

/-- Example High series for the trend-strength analysis: `High[i] = i + 2`. -/
def exHigh : List ℚ := (List.range 27).map (fun (k : ℕ) => (k : ℚ) + 2)

/-- Example Low series: `Low[i] = i`. -/
def exLow : List ℚ := (List.range 27).map (fun (k : ℕ) => (k : ℚ))

/-- Example Close series: `Close[i] = i + 1`. -/
def exClose : List ℚ := (List.range 27).map (fun (k : ℕ) => (k : ℚ) + 1)

/- ### Basic lemmas about the primitives -/

theorem optList_isSome (f : ℕ → Option ℚ) :
    ∀ l : List ℕ, (optList f l).isSome = true ↔ ∀ a ∈ l, (f a).isSome = true := by
  intro l
  induction l with
  | nil => simp [optList]
  | cons a l ih =>
    cases hfa : f a with
    | none => simp [optList, hfa]
    | some x =>
      cases hol : optList f l with
      | none =>
        simp only [optList, hfa, hol]
        simp only [hol, Option.isSome_none, Bool.false_eq_true, false_iff] at ih
        push_neg at ih
        obtain ⟨b, hb, hfb⟩ := ih
        simp only [Option.isSome_none, Bool.false_eq_true, false_iff]
        push_neg
        exact ⟨b, List.mem_cons_of_mem a hb, hfb⟩
      | some xs =>
        simp only [optList, hfa, hol]
        simp only [hol, Option.isSome_some, true_iff] at ih
        simp only [Option.isSome_some, true_iff]
        intro b hb
        rcases List.mem_cons.mp hb with h | h
        · subst h; simp [hfa]
        · exact ih b h

theorem optList_eq_none_of_mem (f : ℕ → Option ℚ) (l : List ℕ) (a : ℕ)
    (ha : a ∈ l) (hfa : f a = none) : optList f l = none := by
  cases hol : optList f l with
  | none => rfl
  | some xs =>
    have h := (optList_isSome f l).mp (by simp [hol]) a ha
    simp [hfa] at h

theorem optList_const (f : ℕ → Option ℚ) (c : ℚ) :
    ∀ l : List ℕ, (∀ a ∈ l, f a = some c) →
      optList f l = some (l.map (fun _ => c)) := by
  intro l h
  induction l with
  | nil => simp [optList]
  | cons a l ih =>
    have ha : f a = some c := h a (List.mem_cons_self a l)
    have hl : optList f l = some (l.map (fun _ => c)) :=
      ih (fun b hb => h b (List.mem_cons_of_mem a hb))
    simp [optList, ha, hl]

theorem optList_sum_nonneg (f : ℕ → Option ℚ)
    (hf : ∀ a x, f a = some x → 0 ≤ x) :
    ∀ (l : List ℕ) (xs : List ℚ), optList f l = some xs → 0 ≤ xs.sum := by
  intro l
  induction l with
  | nil =>
    intro xs h
    simp only [optList, Option.some.injEq] at h
    subst h
    simp
  | cons a l ih =>
    intro xs h
    cases hfa : f a with
    | none => rw [optList, hfa] at h; simp at h
    | some x =>
      cases hol : optList f l with
      | none => rw [optList, hfa, hol] at h; simp at h
      | some ys =>
        rw [optList, hfa, hol] at h
        simp only [Option.some.injEq] at h
        subst h
        simp only [List.sum_cons]
        exact add_nonneg (hf a x hfa) (ih ys hol)

theorem isSome_opt_map {α β : Type} (f : α → β) (o : Option α) :
    (Option.map f o).isSome = o.isSome := by
  cases o <;> rfl

theorem get?_isSome_iff (s : List ℚ) (i : ℕ) :
    (s.get? i).isSome = true ↔ i < s.length := by
  cases h : s.get? i with
  | none =>
    simp only [Option.isSome_none, Bool.false_eq_true, false_iff]
    exact fun hi => by
      rcases List.get?_eq_get hi ▸ h with h'
      simp at h'
  | some x =>
    simp only [Option.isSome_some, true_iff]
    exact (List.get?_eq_some.mp h).1

theorem mem_rollWindow_lt (P i : ℕ) (hP : P ≤ i + 1) :
    ∀ a ∈ rollWindow P i, a ≤ i := by
  intro a ha
  simp only [rollWindow, List.mem_map, List.mem_range] at ha
  obtain ⟨k, hk, rfl⟩ := ha
  omega

theorem self_mem_rollWindow (P i : ℕ) (hP0 : 0 < P) (hP : P ≤ i + 1) :
    i ∈ rollWindow P i := by
  simp only [rollWindow, List.mem_map, List.mem_range]
  exact ⟨P - 1, by omega, by omega⟩

theorem rollingMean_isSome (f : ℕ → Option ℚ) (P i n : ℕ) (hP0 : 0 < P)
    (hf : ∀ j, (f j).isSome = true ↔ j < n) :
    (rollingMean f P i).isSome = true ↔ (P ≤ i + 1 ∧ i < n) := by
  unfold rollingMean rollingSum
  by_cases h : i + 1 < P
  · rw [if_pos h]
    simp only [Option.map_none', Option.isSome_none, Bool.false_eq_true, false_iff]
    omega
  · push_neg at h
    rw [if_neg (by omega : ¬ i + 1 < P), isSome_opt_map, isSome_opt_map]
    rw [optList_isSome]
    constructor
    · intro hall
      refine ⟨h, ?_⟩
      have := hall i (self_mem_rollWindow P i hP0 h)
      exact (hf i).mp this
    · rintro ⟨-, hi⟩ a ha
      exact (hf a).mpr (lt_of_le_of_lt (mem_rollWindow_lt P i h a ha) hi)

theorem gainAt_isSome (s : List ℚ) (j : ℕ) :
    ((gainAt s) j).isSome = true ↔ j < s.length := by
  unfold gainAt
  rw [isSome_opt_map]
  exact get?_isSome_iff s j

theorem lossAt_isSome (s : List ℚ) (j : ℕ) :
    ((lossAt s) j).isSome = true ↔ j < s.length := by
  unfold lossAt
  rw [isSome_opt_map]
  exact get?_isSome_iff s j

theorem replicate_get? (c : ℚ) : ∀ (n j : ℕ), j < n →
    (List.replicate n c).get? j = some c := by
  intro n
  induction n with
  | zero => intro j h; omega
  | succ m ih =>
    intro j h
    cases j with
    | zero => rfl
    | succ k => exact ih k (by omega)

theorem diffAt_replicate (c : ℚ) (n j : ℕ) (h : j + 1 < n) :
    diffAt (List.replicate n c) (j + 1) = some 0 := by
  simp only [diffAt]
  rw [replicate_get? c n (j + 1) h, replicate_get? c n j (by omega)]
  simp

theorem gainAt_replicate (c : ℚ) (n a : ℕ) (ha : a < n) :
    gainAt (List.replicate n c) a = some 0 := by
  unfold gainAt
  rw [replicate_get? c n a ha]
  cases a with
  | zero => simp [diffAt]
  | succ j => simp [diffAt_replicate c n j ha]

theorem lossAt_replicate (c : ℚ) (n a : ℕ) (ha : a < n) :
    lossAt (List.replicate n c) a = some 0 := by
  unfold lossAt
  rw [replicate_get? c n a ha]
  cases a with
  | zero => simp [diffAt]
  | succ j => simp [diffAt_replicate c n j ha]

theorem rollingMean_zero_window (f : ℕ → Option ℚ) (P i : ℕ) (_hP0 : 0 < P)
    (hP : P ≤ i + 1) (hf : ∀ a ∈ rollWindow P i, f a = some 0) :
    rollingMean f P i = some 0 := by
  unfold rollingMean rollingSum
  rw [if_neg (by omega : ¬ i + 1 < P), optList_const f 0 (rollWindow P i) hf]
  have hsum : ((rollWindow P i).map (fun _ => (0 : ℚ))).sum = 0 :=
    List.sum_eq_zero (by simp)
  simp [hsum]

/-- The momentum oscillator of the source on a constant series: every defined
entry is `0` (gains and losses are all zero, so `rs = 0` and
`100 - 100/(1+0) = 0`). -/
theorem rsi_const_eq_zero (c : ℚ) (n i : ℕ) (h13 : 13 ≤ i) (hin : i < n) :
    calculate_rsi (List.replicate n c) 14 i = some 0 := by
  have hg : rollingMean (gainAt (List.replicate n c)) 14 i = some 0 := by
    refine rollingMean_zero_window _ 14 i (by omega) (by omega) ?_
    intro a ha
    exact gainAt_replicate c n a
      (lt_of_le_of_lt (mem_rollWindow_lt 14 i (by omega) a ha) hin)
  have hl : rollingMean (lossAt (List.replicate n c)) 14 i = some 0 := by
    refine rollingMean_zero_window _ 14 i (by omega) (by omega) ?_
    intro a ha
    exact lossAt_replicate c n a
      (lt_of_le_of_lt (mem_rollWindow_lt 14 i (by omega) a ha) hin)
  unfold calculate_rsi
  rw [hg, hl]
  norm_num

/- ### Claim theorems -/

/-- C1 counterexample: on the constant series of fifteen 5s (length ≥ P+1),
the momentum oscillator of the code evaluates to 0, not 50, at the evaluation
point: `rs = 0/(0 + 1e-10) = 0` gives `100 - 100/(1+0) = 0`. -/
theorem C1_counterexample :
    calculate_rsi (List.replicate 15 (5 : ℚ)) 14 14 = some 0 ∧ (0 : ℚ) ≠ 50 := by
  refine ⟨rsi_const_eq_zero 5 15 14 (by omega) (by omega), by norm_num⟩

/-- C1 (amended): for every constant price series, the momentum oscillator
computed by the pipeline equals 0 (not 50) at every defined point — zero
gains and zero losses give `rs = 0` and output `100 - 100/(1+0) = 0`. -/
theorem C1_rsi_constant_series (c : ℚ) (n i : ℕ) (h13 : 13 ≤ i) (hin : i < n) :
    calculate_rsi (List.replicate n c) 14 i = some 0 :=
  rsi_const_eq_zero c n i h13 hin

theorem C1_witness : calculate_rsi (List.replicate 20 (7 : ℚ)) 14 13 = some 0 :=
  C1_rsi_constant_series 7 20 13 (by omega) (by omega)

/-- C2 counterexample: on a 15-element series, the momentum oscillator is
already defined at index 13 = P-1 (the claim states indices 0..P-1 are all
undefined): `delta.where(delta > 0, 0)` turns the index-0 NaN delta into 0,
so the first full gain/loss window ends at index P-1. -/
theorem C2_counterexample :
    (calculate_rsi ((List.range 15).map (fun (k : ℕ) => (k : ℚ))) 14 13).isSome = true := by
  rfl

/-- C2 (amended): for every input series, the momentum oscillator is defined
exactly from index P-1 = 13 onward (and within range): the index-0 NaN delta
is converted to 0 by the `where` filter, so only P-1 leading entries are
undefined, not P. -/
theorem C2_rsi_domain (s : List ℚ) (i : ℕ) :
    (calculate_rsi s 14 i).isSome = true ↔ (13 ≤ i ∧ i < s.length) := by
  have hg := rollingMean_isSome (gainAt s) 14 i s.length (by omega) (gainAt_isSome s)
  have hl := rollingMean_isSome (lossAt s) 14 i s.length (by omega) (lossAt_isSome s)
  unfold calculate_rsi
  cases hgm : rollingMean (gainAt s) 14 i with
  | none =>
    rw [hgm] at hg
    simp only [Option.isSome_none, Bool.false_eq_true, false_iff] at hg
    simp only [Option.none_bind, Option.isSome_none, Bool.false_eq_true, false_iff]
    intro h
    exact hg ⟨by omega, h.2⟩
  | some g =>
    rw [hgm] at hg
    simp only [Option.isSome_some, true_iff] at hg
    cases hlm : rollingMean (lossAt s) 14 i with
    | none =>
      rw [hlm] at hl
      simp only [Option.isSome_none, Bool.false_eq_true, false_iff] at hl
      exact absurd hg hl
    | some l =>
      simp only [Option.some_bind, Option.map_some', Option.isSome_some]
      exact iff_of_true trivial ⟨by omega, hg.2⟩

/- ### EMA lemmas (C4) -/

theorem emaGo_length (a : ℚ) : ∀ (xs : List ℚ) (prev : ℚ),
    (emaGo a prev xs).length = xs.length := by
  intro xs
  induction xs with
  | nil => intro prev; rfl
  | cons x t ih => intro prev; simp [emaGo, ih]

theorem emaGo_getD_succ (a : ℚ) : ∀ (xs : List ℚ) (prev : ℚ) (i : ℕ),
    i + 1 < xs.length →
    (emaGo a prev xs).getD (i + 1) 0 =
      a * xs.getD (i + 1) 0 + (1 - a) * (emaGo a prev xs).getD i 0 := by
  intro xs
  induction xs with
  | nil => intro prev i h; simp at h
  | cons x t ih =>
    intro prev i h
    cases i with
    | zero =>
      cases t with
      | nil => simp at h
      | cons z t2 => simp [emaGo]
    | succ j =>
      have hj : j + 1 < t.length := by simpa using h
      simpa [emaGo] using ih (a * x + (1 - a) * prev) j hj

/-- C4: the exponential moving average satisfies the documented recurrence
`ema[0] = series[0]`, `ema[i] = α·series[i] + (1-α)·ema[i-1]` with
`α = 2/(P+1)`, with the same length as the input (no warm-up gap), and the
hand-computed example `[10,11,12,11,13]`, `P = 3` gives `ema[0] = 10`,
`ema[1] = 10.5`. -/
theorem C4_ema_recurrence (s : List ℚ) (P : ℕ) :
    ((calculate_ema s P).length = s.length
      ∧ (0 < s.length → (calculate_ema s P).getD 0 0 = s.getD 0 0)
      ∧ (∀ i, i + 1 < s.length →
          (calculate_ema s P).getD (i + 1) 0 =
            (2 / ((P : ℚ) + 1)) * s.getD (i + 1) 0
              + (1 - 2 / ((P : ℚ) + 1)) * (calculate_ema s P).getD i 0))
    ∧ (calculate_ema [(10 : ℚ), 11, 12, 11, 13] 3).getD 0 0 = 10
    ∧ (calculate_ema [(10 : ℚ), 11, 12, 11, 13] 3).getD 1 0 = 21 / 2 := by
  refine ⟨⟨?_, ?_, ?_⟩, ?_, ?_⟩
  · cases s with
    | nil => rfl
    | cons x xs => simp [calculate_ema, emaGo_length]
  · cases s with
    | nil => intro h; simp at h
    | cons x xs => intro _; rfl
  · intro i hi
    cases s with
    | nil => simp at hi
    | cons x xs =>
      cases i with
      | zero =>
        cases xs with
        | nil => simp at hi
        | cons z t => simp [calculate_ema, emaGo]
      | succ j =>
        have hj : j + 1 < xs.length := by simpa using hi
        simpa [calculate_ema] using emaGo_getD_succ (2 / ((P : ℚ) + 1)) xs x j hj
  · rfl
  · show (2 / ((3 : ℚ) + 1)) * 11 + (1 - 2 / ((3 : ℚ) + 1)) * 10 = 21 / 2
    norm_num

theorem C4_witness :
    (0 < ([(10 : ℚ), 11, 12, 11, 13] : List ℚ).length
      ∧ (calculate_ema [(10 : ℚ), 11, 12, 11, 13] 3).getD 0 0 =
          ([(10 : ℚ), 11, 12, 11, 13] : List ℚ).getD 0 0)
    ∧ (0 + 1 < ([(10 : ℚ), 11, 12, 11, 13] : List ℚ).length
      ∧ (calculate_ema [(10 : ℚ), 11, 12, 11, 13] 3).getD (0 + 1) 0 =
          (2 / ((3 : ℚ) + 1)) * ([(10 : ℚ), 11, 12, 11, 13] : List ℚ).getD (0 + 1) 0
            + (1 - 2 / ((3 : ℚ) + 1)) * (calculate_ema [(10 : ℚ), 11, 12, 11, 13] 3).getD 0 0) :=
  ⟨⟨by simp, (C4_ema_recurrence [(10 : ℚ), 11, 12, 11, 13] 3).1.2.1 (by simp)⟩,
   ⟨by simp, (C4_ema_recurrence [(10 : ℚ), 11, 12, 11, 13] 3).1.2.2 0 (by simp)⟩⟩

/- ### Criteria evaluator (C5, C6, C7) -/

/-- C5: the four criterion booleans are exactly the documented rules
(price > average strict; 50 ≤ momentum ≤ 70 inclusive; trend-strength > 25
strict; volume-spike per its guarded rule), each a function of its own inputs
only, and the aggregate flag is true iff all four are true. -/
theorem C5_criteria_and (t : String) (price ema rsi adx : ℚ) (vol : ℤ) (va : ℚ) :
    ((evalCriteria t price ema rsi adx vol va).priceAboveEma = true ↔ ema < price)
    ∧ ((evalCriteria t price ema rsi adx vol va).rsiInRange = true ↔
        (50 ≤ rsi ∧ rsi ≤ 70))
    ∧ ((evalCriteria t price ema rsi adx vol va).adxStrong = true ↔ 25 < adx)
    ∧ ((evalCriteria t price ema rsi adx vol va).volumeSpike = true ↔
        (0 < va ∧ va * (3 / 2) ≤ (vol : ℚ)))
    ∧ ((evalCriteria t price ema rsi adx vol va).allCriteria = true ↔
        ((evalCriteria t price ema rsi adx vol va).priceAboveEma = true
          ∧ (evalCriteria t price ema rsi adx vol va).rsiInRange = true
          ∧ (evalCriteria t price ema rsi adx vol va).adxStrong = true
          ∧ (evalCriteria t price ema rsi adx vol va).volumeSpike = true)) := by
  refine ⟨?_, ?_, ?_, ?_, ?_⟩
  · simp [evalCriteria]
  · simp [evalCriteria]
  · simp [evalCriteria]
  · by_cases h : 0 < va <;> simp [evalCriteria, h]
  · simp [evalCriteria, Bool.and_eq_true, and_assoc]

/-- C6: the volume-spike criterion holds exactly when the 20-period volume
average is strictly positive and volume ≥ 1.5 × that average; for a
non-positive (in particular zero) average it is false regardless of volume. -/
theorem C6_volume_spike_guard (t : String) (price ema rsi adx : ℚ) (vol : ℤ) (va : ℚ) :
    ((evalCriteria t price ema rsi adx vol va).volumeSpike = true ↔
        (0 < va ∧ va * (3 / 2) ≤ (vol : ℚ)))
    ∧ (va ≤ 0 → (evalCriteria t price ema rsi adx vol va).volumeSpike = false) := by
  constructor
  · by_cases h : 0 < va <;> simp [evalCriteria, h]
  · intro h
    simp [evalCriteria, not_lt.mpr h]

theorem C6_witness :
    (evalCriteria "TCS" 100 90 60 30 1000000 0).volumeSpike = false :=
  (C6_volume_spike_guard "TCS" 100 90 60 30 1000000 0).2 (by norm_num)

/-- C7: a non-finite indicator value at the evaluation point (modelled as
`none`) is replaced by its neutral default before the criteria are checked:
momentum → 50.0, trend-strength → 0.0, 20-period volume average → 0.0 (which
in turn makes the volume-spike criterion false). -/
theorem C7_nonfinite_defaults (t : String) (data : List Bar) :
    (calculate_rsi (data.map Bar.close) 14 (data.length - 1) = none →
      (screenStockCompute t data).rsi14 = 50)
    ∧ (calculate_adx (data.map Bar.high) (data.map Bar.low) (data.map Bar.close) 14
        (data.length - 1) = none → (screenStockCompute t data).adx14 = 0)
    ∧ (volAvgAt (data.map (fun b => (b.volume : ℚ))) (data.length - 1) = none →
        ((screenStockCompute t data).volAvg20 = 0
          ∧ (screenStockCompute t data).volumeSpike = false)) := by
  refine ⟨?_, ?_, ?_⟩
  · intro h; simp [screenStockCompute, evalCriteria, h]
  · intro h; simp [screenStockCompute, evalCriteria, h]
  · intro h
    constructor
    · simp [screenStockCompute, evalCriteria, h]
    · simp [screenStockCompute, evalCriteria, h]

theorem C7_witness :
    (screenStockCompute "T" [⟨1, 1, 1, 1⟩]).rsi14 = 50
    ∧ (screenStockCompute "T" [⟨1, 1, 1, 1⟩]).adx14 = 0
    ∧ (screenStockCompute "T" [⟨1, 1, 1, 1⟩]).volAvg20 = 0
    ∧ (screenStockCompute "T" [⟨1, 1, 1, 1⟩]).volumeSpike = false :=
  ⟨(C7_nonfinite_defaults "T" [⟨1, 1, 1, 1⟩]).1 rfl,
   (C7_nonfinite_defaults "T" [⟨1, 1, 1, 1⟩]).2.1 rfl,
   ((C7_nonfinite_defaults "T" [⟨1, 1, 1, 1⟩]).2.2 rfl).1,
   ((C7_nonfinite_defaults "T" [⟨1, 1, 1, 1⟩]).2.2 rfl).2⟩

/- ### Orchestrator (C8, C9, C10) -/

theorem screen_stocks_snd (fetch : String → Option (List Bar)) (ts : List String) :
    (screen_stocks fetch ts).2 =
      (screen_stocks fetch ts).1.filter (fun r => r.allCriteria) := by
  unfold screen_stocks
  cases hdf : ts.filterMap (screen_stock fetch) with
  | nil => simp
  | cons a l => simp

/-- C8: a per-ticker failure — the fetch collaborator returning nothing (no
data or an exception), or fewer than 50 bars — yields no record for that
ticker, and a failed ticker anywhere in the batch leaves the results for the
remaining tickers exactly unchanged. -/
theorem C8_per_ticker_isolation (fetch : String → Option (List Bar)) (t : String)
    (ts1 ts2 : List String) :
    (fetch (normalizeTicker t) = none → screen_stock fetch t = none)
    ∧ (∀ d, fetch (normalizeTicker t) = some d → d.length < 50 →
        screen_stock fetch t = none)
    ∧ (screen_stock fetch t = none →
        screen_stocks fetch (ts1 ++ t :: ts2) = screen_stocks fetch (ts1 ++ ts2)) := by
  refine ⟨?_, ?_, ?_⟩
  · intro h; unfold screen_stock; rw [h]
  · intro d hd hlen; unfold screen_stock; rw [hd]; simp [hlen]
  · intro h
    have hdf : (ts1 ++ t :: ts2).filterMap (screen_stock fetch)
        = (ts1 ++ ts2).filterMap (screen_stock fetch) := by
      simp [List.filterMap_append, List.filterMap_cons, h]
    unfold screen_stocks
    rw [hdf]

theorem C8_witness :
    screen_stock (fun _ => none) "TCS" = none
    ∧ screen_stocks (fun _ => none) (["INFY"] ++ "TCS" :: ["WIPRO"])
        = screen_stocks (fun _ => none) (["INFY"] ++ ["WIPRO"]) := by
  have h := C8_per_ticker_isolation (fun _ => none) "TCS" ["INFY"] ["WIPRO"]
  exact ⟨h.1 rfl, h.2.2 (h.1 rfl)⟩

/-- C9: the passed-only table returned by the orchestrator is exactly the
records of the all-results table whose aggregate flag is true, and in
particular a sublist (subset) of the all-results table. -/
theorem C9_passed_subset (fetch : String → Option (List Bar)) (ts : List String) :
    (screen_stocks fetch ts).2 =
      (screen_stocks fetch ts).1.filter (fun r => r.allCriteria)
    ∧ (screen_stocks fetch ts).2.Sublist (screen_stocks fetch ts).1 := by
  refine ⟨screen_stocks_snd fetch ts, ?_⟩
  rw [screen_stocks_snd fetch ts]
  exact List.filter_sublist _

theorem filter_length_pos_iff_any (l : List ScreenResult) (q : ScreenResult → Bool) :
    (0 < (l.filter q).length) ↔ l.any q = true := by
  rw [List.length_pos, Ne, List.filter_eq_nil_iff]
  push_neg
  simp [List.any_eq_true]

/-- C10: after a run, the exit code is 0; the all-results table is written to
the required output path exactly when non-empty; and a passed-only file is
written only when a passed-only path was supplied and at least one record has
the aggregate flag true — with a path supplied and zero passing records, only
the all-results file is written and the run still exits 0. -/
theorem C10_output_files (fetch : String → Option (List Bar)) (ts : List String)
    (out p : String) :
    (mainRun fetch ts out (some p)).2 = 0
    ∧ (mainRun fetch ts out none).2 = 0
    ∧ (mainRun fetch ts out none).1 =
        (if (screen_stocks fetch ts).1 = [] then []
         else [(out, (screen_stocks fetch ts).1)])
    ∧ (mainRun fetch ts out (some p)).1 =
        (if (screen_stocks fetch ts).1 = [] then []
         else if (screen_stocks fetch ts).1.any (fun r => r.allCriteria) then
            [(out, (screen_stocks fetch ts).1), (p, (screen_stocks fetch ts).2)]
         else [(out, (screen_stocks fetch ts).1)]) := by
  have hsnd := screen_stocks_snd fetch ts
  have hany := filter_length_pos_iff_any (screen_stocks fetch ts).1
    (fun r => r.allCriteria)
  refine ⟨?_, ?_, ?_, ?_⟩
  · unfold mainRun mainSave
    by_cases h : 0 < (screen_stocks fetch ts).1.length <;> simp [h]
  · unfold mainRun mainSave
    by_cases h : 0 < (screen_stocks fetch ts).1.length <;> simp [h]
  · unfold mainRun mainSave
    by_cases hnil : (screen_stocks fetch ts).1 = []
    · simp [hnil]
    · simp [hnil, List.length_pos.mpr hnil]
  · unfold mainRun mainSave
    by_cases hnil : (screen_stocks fetch ts).1 = []
    · simp [hnil]
    · by_cases ha : (screen_stocks fetch ts).1.any (fun r => r.allCriteria) = true
      · have hp : 0 < (screen_stocks fetch ts).2.length := by
          rw [hsnd]; exact hany.mpr ha
        simp [hnil, List.length_pos.mpr hnil, ha, hp]
      · have hp : ¬ 0 < (screen_stocks fetch ts).2.length := by
          rw [hsnd]; intro hc; exact ha (hany.mp hc)
        simp [hnil, List.length_pos.mpr hnil, ha, hp]

/- ### Trend-strength (ADX) lemmas (C3) -/

theorem mem_rollWindow_ge (P i : ℕ) : ∀ a ∈ rollWindow P i, i + 1 - P ≤ a := by
  intro a ha
  simp only [rollWindow, List.mem_map, List.mem_range] at ha
  obtain ⟨k, hk, rfl⟩ := ha
  omega

theorem dxAt_warmup (H L C : List ℚ) (j : ℕ) (h : j + 1 < 14) :
    dxAt H L C 14 j = none := by
  simp [dxAt, plusDIAt, minusDIAt, rollingSum, h]

theorem calculate_adx_warmup (H L C : List ℚ) (i : ℕ) (h : i < 26) :
    calculate_adx H L C 14 i = none := by
  unfold calculate_adx rollingMean rollingSum
  by_cases h13 : i + 1 < 14
  · rw [if_pos h13]; rfl
  · rw [if_neg h13]
    have hmem : i + 1 - 14 + 0 ∈ rollWindow 14 i := by
      simp only [rollWindow, List.mem_map, List.mem_range]
      exact ⟨0, by omega, rfl⟩
    have hnone : dxAt H L C 14 (i + 1 - 14 + 0) = none :=
      dxAt_warmup H L C (i + 1 - 14 + 0) (by omega)
    rw [optList_eq_none_of_mem (dxAt H L C 14) (rollWindow 14 i) _ hmem hnone]
    rfl

theorem exHigh_get? (i : ℕ) (h : i < 27) : exHigh.get? i = some ((i : ℚ) + 2) := by
  unfold exHigh
  rw [List.get?_map, List.get?_range h]
  rfl

theorem exLow_get? (i : ℕ) (h : i < 27) : exLow.get? i = some ((i : ℚ)) := by
  unfold exLow
  rw [List.get?_map, List.get?_range h]
  rfl

theorem exClose_get? (i : ℕ) (h : i < 27) : exClose.get? i = some ((i : ℚ) + 1) := by
  unfold exClose
  rw [List.get?_map, List.get?_range h]
  rfl

theorem trAt_ex (i : ℕ) (h : i < 27) : trAt exHigh exLow exClose i = some 2 := by
  cases i with
  | zero =>
    simp only [trAt, exHigh_get? 0 (by omega), exLow_get? 0 (by omega), prevAt]
    norm_num
  | succ j =>
    have hp : prevAt exClose (j + 1) = some ((j : ℚ) + 1) :=
      exClose_get? j (by omega)
    simp only [trAt, exHigh_get? (j + 1) h, exLow_get? (j + 1) h, hp]
    push_cast
    have e1 : ((j : ℚ) + 1 + 2) - ((j : ℚ) + 1) = 2 := by ring
    have e2 : ((j : ℚ) + 1 + 2) - ((j : ℚ) + 1) = 2 := by ring
    have e3 : ((j : ℚ) + 1) - ((j : ℚ) + 1) = 0 := by ring
    rw [e1, e3]
    norm_num

theorem sum_map_const_rat (c : ℚ) : ∀ l : List ℕ,
    (l.map (fun _ => c)).sum = (l.length : ℚ) * c := by
  intro l
  induction l with
  | nil => simp
  | cons a t ih =>
    simp only [List.map_cons, List.sum_cons, ih, List.length_cons]
    push_cast
    ring

theorem trSum_ex (i : ℕ) (h13 : 13 ≤ i) (h : i < 27) :
    rollingSum (trAt exHigh exLow exClose) 14 i = some 28 := by
  unfold rollingSum
  rw [if_neg (by omega : ¬ i + 1 < 14)]
  rw [optList_const (trAt exHigh exLow exClose) 2 (rollWindow 14 i) ?window]
  case window =>
    intro a ha
    exact trAt_ex a (by have := mem_rollWindow_lt 14 i (by omega) a ha; omega)
  rw [Option.map_some', sum_map_const_rat]
  have hlen : (rollWindow 14 i).length = 14 := by simp [rollWindow]
  rw [hlen]
  norm_num

theorem dm_ite_nonneg (a b : ℚ) : (0 : ℚ) ≤ if b < a ∧ 0 < a then a else 0 := by
  split_ifs with h
  · exact le_of_lt h.2
  · exact le_refl 0

theorem plusDMAt_nonneg (H L : List ℚ) (a : ℕ) (x : ℚ)
    (h : plusDMAt H L a = some x) : 0 ≤ x := by
  unfold plusDMAt at h
  cases hg : H.get? a with
  | none => rw [hg] at h; simp at h
  | some v =>
    rw [hg] at h
    simp only [Option.map_some', Option.some.injEq] at h
    subst h
    cases plusDMraw H a with
    | none => cases minusDMraw L a <;> simp
    | some p =>
      cases minusDMraw L a with
      | none => simp
      | some m => exact dm_ite_nonneg p m

theorem minusDMAt_nonneg (H L : List ℚ) (a : ℕ) (x : ℚ)
    (h : minusDMAt H L a = some x) : 0 ≤ x := by
  unfold minusDMAt at h
  cases hg : L.get? a with
  | none => rw [hg] at h; simp at h
  | some v =>
    rw [hg] at h
    simp only [Option.map_some', Option.some.injEq] at h
    subst h
    cases minusDMraw L a with
    | none => cases plusDMAt H L a <;> simp
    | some m =>
      cases plusDMAt H L a with
      | none => simp
      | some p => exact dm_ite_nonneg m p

theorem plusDMAt_ex_isSome (a : ℕ) (h : a < 27) :
    (plusDMAt exHigh exLow a).isSome = true := by
  unfold plusDMAt
  rw [isSome_opt_map, get?_isSome_iff]
  simpa [exHigh] using h

theorem minusDMAt_ex_isSome (a : ℕ) (h : a < 27) :
    (minusDMAt exHigh exLow a).isSome = true := by
  unfold minusDMAt
  rw [isSome_opt_map, get?_isSome_iff]
  simpa [exLow] using h

theorem plusDMSum_ex (j : ℕ) (h13 : 13 ≤ j) (h : j < 27) :
    ∃ s, rollingSum (plusDMAt exHigh exLow) 14 j = some s ∧ 0 ≤ s := by
  unfold rollingSum
  rw [if_neg (by omega : ¬ j + 1 < 14)]
  cases hol : optList (plusDMAt exHigh exLow) (rollWindow 14 j) with
  | none =>
    exfalso
    have hall : ∀ a ∈ rollWindow 14 j, ((plusDMAt exHigh exLow) a).isSome = true := by
      intro a ha
      exact plusDMAt_ex_isSome a
        (by have := mem_rollWindow_lt 14 j (by omega) a ha; omega)
    have hs := (optList_isSome (plusDMAt exHigh exLow) (rollWindow 14 j)).mpr hall
    rw [hol] at hs
    simp at hs
  | some xs =>
    exact ⟨xs.sum, by simp,
      optList_sum_nonneg _ (fun a x hx => plusDMAt_nonneg exHigh exLow a x hx) _ xs hol⟩

theorem minusDMSum_ex (j : ℕ) (h13 : 13 ≤ j) (h : j < 27) :
    ∃ s, rollingSum (minusDMAt exHigh exLow) 14 j = some s ∧ 0 ≤ s := by
  unfold rollingSum
  rw [if_neg (by omega : ¬ j + 1 < 14)]
  cases hol : optList (minusDMAt exHigh exLow) (rollWindow 14 j) with
  | none =>
    exfalso
    have hall : ∀ a ∈ rollWindow 14 j, ((minusDMAt exHigh exLow) a).isSome = true := by
      intro a ha
      exact minusDMAt_ex_isSome a
        (by have := mem_rollWindow_lt 14 j (by omega) a ha; omega)
    have hs := (optList_isSome (minusDMAt exHigh exLow) (rollWindow 14 j)).mpr hall
    rw [hol] at hs
    simp at hs
  | some xs =>
    exact ⟨xs.sum, by simp,
      optList_sum_nonneg _ (fun a x hx => minusDMAt_nonneg exHigh exLow a x hx) _ xs hol⟩

theorem plusDI_ex (j : ℕ) (h13 : 13 ≤ j) (h : j < 27) :
    ∃ p, plusDIAt exHigh exLow exClose 14 j = some p ∧ 0 ≤ p := by
  obtain ⟨s, hs, hs0⟩ := plusDMSum_ex j h13 h
  refine ⟨100 * (s / 28), ?_, ?_⟩
  · simp only [plusDIAt, hs, trSum_ex j h13 h]
    rw [if_neg (by norm_num : ¬ (28 : ℚ) = 0)]
  · exact mul_nonneg (by norm_num) (div_nonneg hs0 (by norm_num))

theorem minusDI_ex (j : ℕ) (h13 : 13 ≤ j) (h : j < 27) :
    ∃ m, minusDIAt exHigh exLow exClose 14 j = some m ∧ 0 ≤ m := by
  obtain ⟨s, hs, hs0⟩ := minusDMSum_ex j h13 h
  refine ⟨100 * (s / 28), ?_, ?_⟩
  · simp only [minusDIAt, hs, trSum_ex j h13 h]
    rw [if_neg (by norm_num : ¬ (28 : ℚ) = 0)]
  · exact mul_nonneg (by norm_num) (div_nonneg hs0 (by norm_num))

theorem dxAt_ex_isSome (j : ℕ) (h13 : 13 ≤ j) (h : j < 27) :
    (dxAt exHigh exLow exClose 14 j).isSome = true := by
  obtain ⟨p, hp, hp0⟩ := plusDI_ex j h13 h
  obtain ⟨m, hm, hm0⟩ := minusDI_ex j h13 h
  simp only [dxAt, hp, hm]
  rw [if_neg (by intro hc; linarith : ¬ p + m + 1 / 1000 = 0)]
  rfl

/-- C3 counterexample: on a concrete 27-bar High/Low/Close input the true
range at index 0 is defined (it equals `High[0] - Low[0] = 2`; the NaN
prev-close terms are skipped by the rowwise max), and the trend-strength
oscillator is already defined at index 26 = 2P-2, contradicting both parts of
the claim (TR NaN at 0; first defined index 2P-1 = 27). -/
theorem C3_counterexample :
    trAt exHigh exLow exClose 0 = some 2
    ∧ (calculate_adx exHigh exLow exClose 14 26).isSome = true := by
  refine ⟨trAt_ex 0 (by omega), ?_⟩
  unfold calculate_adx rollingMean rollingSum
  rw [if_neg (by omega : ¬ 26 + 1 < 14)]
  rw [isSome_opt_map, isSome_opt_map, optList_isSome]
  intro a ha
  have h1 := mem_rollWindow_lt 14 26 (by omega) a ha
  have h2 := mem_rollWindow_ge 14 26 a ha
  exact dxAt_ex_isSome a (by omega) (by omega)

/-- C3 (amended): the true range at index 0 equals `High[0] - Low[0]` (the
prev-close terms are NaN but the rowwise max skips NaN, so no NaN
propagates), and the trend-strength oscillator is undefined for all indices
below 2P-2 = 26 — one P-window for the DI rolling sums (first complete at
index P-1 = 13) and another P-window for averaging DX. -/
theorem C3_adx_warmup (high low close : List ℚ) :
    (0 < high.length → 0 < low.length →
      trAt high low close 0 = some (high.getD 0 0 - low.getD 0 0))
    ∧ (∀ i, i < 26 → calculate_adx high low close 14 i = none) := by
  constructor
  · intro hH hL
    cases high with
    | nil => simp at hH
    | cons a t =>
      cases low with
      | nil => simp at hL
      | cons b u => rfl
  · intro i hi
    exact calculate_adx_warmup high low close i hi

theorem C3_witness :
    trAt exHigh exLow exClose 0 = some (exHigh.getD 0 0 - exLow.getD 0 0)
    ∧ calculate_adx exHigh exLow exClose 14 25 = none :=
  ⟨(C3_adx_warmup exHigh exLow exClose).1 (by simp [exHigh]) (by simp [exLow]),
   (C3_adx_warmup exHigh exLow exClose).2 25 (by omega)⟩

end ScreenStocks
